import Mathlib

/-!
Shallow embedding of the `sdm-pack-s3` bucket reconciliation engine
(`lib/putS3.ts`, `lib/deleteS3.ts`, `lib/publishToS3.ts`).

External collaborators (the AWS S3 client, the project file lookup, JSON
parsing, MIME inference) are modelled as explicit capabilities: the S3
client is a record of state-passing functions so that one definition covers
every environment (scripted failure sequences, page servers, and an honest
all-success bucket).  Each embedded function also returns the list of
requests it issued together with the responses it observed, mirroring the
sequence of `await` points in the source.
-/

namespace SdmS3

/-- A JavaScript error value as observed in `catch (e)`: the code checked
against `"InvalidAccessKeyId"` and the interpolated message. -/
structure JsError where
  code : String
  message : String
deriving Repr, DecidableEq

/-- `S3.Object` as consumed by `filterKeys`: only `Key` is load-bearing,
and it may be absent (`Key?: string`).  JavaScript truthiness also drops
an empty string, so absence and `""` behave alike. -/
structure S3Object where
  Key : Option String
deriving Repr, DecidableEq

/-- `S3.ObjectIdentifier` as produced by `filterKeys` and consumed by
`deleteObjects`. -/
structure ObjectIdentifier where
  Key : Option String
deriving Repr, DecidableEq

/-- JavaScript truthiness of an optional string: `undefined` and `""` are
falsy. -/
def truthyStr : Option String → Bool
  | none => false
  | some s => !(s == "")

/-- Rendering of an optional string inside a template literal:
`undefined` prints as `"undefined"`. -/
def templateStr : Option String → String
  | none => "undefined"
  | some s => s

/-- `filterKeys` from `lib/deleteS3.ts`:
`objects.filter(o => o.Key && !keys.includes(o.Key)).map(o => ({ Key: o.Key }))`. -/
def filterKeys (keys : List String) (objects : List S3Object) : List ObjectIdentifier :=
  (objects.filter fun o => truthyStr o.Key && !(keys.contains (o.Key.getD ""))).map
    fun o => { Key := o.Key }

/-- Spec-side restatement of §4.3: keep, in input order, exactly the
objects whose key is present, non-empty, and not a member of `keysToKeep`,
projected to their key. -/
def filterKeysSpec (keysToKeep : List String) (objects : List S3Object) :
    List ObjectIdentifier :=
  objects.filterMap fun o =>
    match o.Key with
    | some k => if k ≠ "" ∧ k ∉ keysToKeep then some { Key := some k } else none
    | none => none

theorem truthyStr_iff (k : Option String) :
    truthyStr k = true ↔ ∃ s, k = some s ∧ s ≠ "" := by
  cases k with
  | none => simp [truthyStr]
  | some s => simp [truthyStr]

theorem filterKeys_eq_spec (keys : List String) (objects : List S3Object) :
    filterKeys keys objects = filterKeysSpec keys objects := by
  induction objects with
  | nil => rfl
  | cons o rest ih =>
    rcases o with ⟨ko⟩
    cases ko with
    | none =>
      simp only [filterKeys, filterKeysSpec, List.filter_cons, List.filterMap_cons,
        truthyStr, Bool.false_and, List.map_cons] at ih ⊢
      exact ih
    | some k =>
      by_cases hk : k = ""
      · subst hk
        simp [filterKeys, filterKeysSpec, List.filter_cons, List.filterMap_cons,
          truthyStr] at ih ⊢
        exact ih
      · by_cases hmem : k ∈ keys
        · simp [filterKeys, filterKeysSpec, List.filter_cons, List.filterMap_cons,
            truthyStr, hk, hmem, List.contains, Option.getD] at ih ⊢
          exact ih
        · simp [filterKeys, filterKeysSpec, List.filter_cons, List.filterMap_cons,
            truthyStr, hk, hmem, List.contains, Option.getD] at ih ⊢
          exact ih

theorem mem_filterKeys (keys : List String) (objects : List S3Object)
    (r : ObjectIdentifier) (hr : r ∈ filterKeys keys objects) :
    ∃ k, r.Key = some k ∧ k ≠ "" ∧ k ∉ keys ∧ S3Object.mk (some k) ∈ objects := by
  unfold filterKeys at hr
  rcases List.mem_map.mp hr with ⟨o, hof, hro⟩
  rcases List.mem_filter.mp hof with ⟨ho, hp⟩
  simp only [Bool.and_eq_true, Bool.not_eq_true'] at hp
  obtain ⟨ht, hc⟩ := hp
  obtain ⟨k, hk, hkne⟩ := (truthyStr_iff o.Key).mp ht
  have hget : o.Key.getD "" = k := by rw [hk]; rfl
  rw [hget] at hc
  have hmem : k ∉ keys := by
    intro hm
    simp [List.contains, hm] at hc
  refine ⟨k, ?_, hkne, hmem, ?_⟩
  · rw [← hro, hk]
  · have : o = S3Object.mk (some k) := by cases o; simpa using hk
    rwa [this] at ho

/-- C1: `filterKeys(keysToKeep, objects)` returns exactly the records whose
key is present (non-empty) and not a member of `keysToKeep`, projected to
`{Key}`, preserving the relative input order of `objects`; records lacking
a key never appear in the result. -/
theorem filterKeys_correct (keysToKeep : List String) (objects : List S3Object) :
    filterKeys keysToKeep objects = filterKeysSpec keysToKeep objects ∧
    (∀ r ∈ filterKeys keysToKeep objects,
      ∃ k, r.Key = some k ∧ k ≠ "" ∧ k ∉ keysToKeep) ∧
    List.Sublist (filterKeys keysToKeep objects)
      (objects.map fun o => { Key := o.Key }) := by
  refine ⟨filterKeys_eq_spec keysToKeep objects, ?_, ?_⟩
  · intro r hr
    rcases mem_filterKeys keysToKeep objects r hr with ⟨k, h1, h2, h3, _⟩
    exact ⟨k, h1, h2, h3⟩
  · exact List.Sublist.map _ (List.filter_sublist objects)

/-- The parameter object of `s3.putObject`: the base fields built by
`putFiles` in `lib/putS3.ts`.  The file body is modelled as a string. -/
structure PutRequest where
  Bucket : String
  Key : String
  Body : String
  ContentType : String
deriving Repr, DecidableEq

/-- `Partial<S3.Types.PutObjectRequest>` as read from a companion params
file: each protocol field may be present (overriding) or absent. -/
structure PutOverrides where
  Bucket : Option String := none
  Key : Option String := none
  Body : Option String := none
  ContentType : Option String := none
deriving Repr, DecidableEq

/-- The spread `{ Bucket, Key, Body, ContentType, ...fileParams }`: a field
present in `fileParams` replaces the same-named base field. -/
def spreadOverrides (base : PutRequest) (ov : PutOverrides) : PutRequest :=
  { Bucket := ov.Bucket.getD base.Bucket
    Key := ov.Key.getD base.Key
    Body := ov.Body.getD base.Body
    ContentType := ov.ContentType.getD base.ContentType }

/-- The parameter object of `s3.listObjectsV2` as built by
`gatherKeysToDelete`. -/
structure ListRequest where
  Bucket : String
  MaxKeys : Nat
  ContinuationToken : Option String
deriving Repr, DecidableEq

/-- `S3.ListObjectsV2Output`, restricted to the fields the code reads. -/
structure ListObjectsOutput where
  Contents : List S3Object
  IsTruncated : Bool
  NextContinuationToken : Option String
deriving Repr, DecidableEq

/-- The parameter object of `s3.deleteObjects`
(`{ Bucket, Delete: { Objects } }`). -/
structure DeleteRequest where
  Bucket : String
  Objects : List ObjectIdentifier
deriving Repr, DecidableEq

/-- One entry of the `Errors` array of a delete response. -/
structure DeleteError where
  Key : Option String
  Message : String
deriving Repr, DecidableEq

/-- The response of `s3.deleteObjects`. -/
structure DeleteObjectsResult where
  Deleted : List ObjectIdentifier
  Errors : List DeleteError
deriving Repr, DecidableEq

/-- The S3 client, as the three capabilities the engine consumes.  `σ` is
the environment's private state, threaded through each awaited call in
program order. -/
structure S3Client (σ : Type) where
  putObject : σ → PutRequest → (Except JsError Unit) × σ
  listObjectsV2 : σ → ListRequest → (Except JsError ListObjectsOutput) × σ
  deleteObjects : σ → DeleteRequest → (Except JsError DeleteObjectsResult) × σ

/-- The per-object warning `Error deleting object '<key>': <detail>`. -/
def deleteObjectErrMsg (e : DeleteError) : String :=
  "Error deleting object '" ++ templateStr e.Key ++ "': " ++ e.Message

/-- `deleteNow.map(o => o.Key).join(",")`. -/
def keysJoined (l : List ObjectIdentifier) : String :=
  String.intercalate "," (l.map fun o => templateStr o.Key)

/-- The batch-level warning recorded when a whole delete request fails. -/
def deleteBatchFailMsg (bucketName : String) (deleteNow : List ObjectIdentifier)
    (message : String) : String :=
  "Failed to delete objects (" ++ keysJoined deleteNow ++ ") in 's3://" ++
    bucketName ++ "': " ++ message

/-- What one run of `deleteKeys` produced: the running total, the warnings
in order, the issued requests paired with the observed responses, and the
final environment state. -/
structure DeleteOutcome (σ : Type) where
  deleted : Nat
  warnings : List String
  calls : List (DeleteRequest × Except JsError DeleteObjectsResult)
  state : σ
deriving Repr

/-- The provider's batch limit used by both loops (`maxItems = 1000`). -/
def maxItems : Nat := 1000

/-- The loop of `deleteKeys`: take the next slice of at most 1000
candidates, issue one batched delete, accumulate, and stop at the first
request-level failure.  The fuel argument only bounds the number of
slices; `deleteKeys` passes the list length, which is never exhausted
because every iteration consumes at least one candidate. -/
def deleteKeysGo {σ : Type} (c : S3Client σ) (bucketName : String) :
    Nat → List ObjectIdentifier → σ → DeleteOutcome σ
  | _, [], s => ⟨0, [], [], s⟩
  | 0, _ :: _, s => ⟨0, [], [], s⟩
  | fuel + 1, l@(_ :: _), s =>
    let deleteNow := l.take maxItems
    let req : DeleteRequest := ⟨bucketName, deleteNow⟩
    match c.deleteObjects s req with
    | (.ok res, s1) =>
      let ws := res.Errors.map deleteObjectErrMsg
      let rest := deleteKeysGo c bucketName fuel (l.drop maxItems) s1
      ⟨res.Deleted.length + rest.deleted, ws ++ rest.warnings,
        (req, .ok res) :: rest.calls, rest.state⟩
    | (.error e, s1) =>
      ⟨0, [deleteBatchFailMsg bucketName deleteNow e.message], [(req, .error e)], s1⟩

/-- `deleteKeys` from `lib/deleteS3.ts`. -/
def deleteKeys {σ : Type} (c : S3Client σ) (bucketName : String)
    (keysToDelete : List ObjectIdentifier) (s : σ) : DeleteOutcome σ :=
  deleteKeysGo c bucketName keysToDelete.length keysToDelete s

/-- Spec-side: the partition of a list into consecutive chunks of at most
`maxItems` elements (same fuel convention as `deleteKeysGo`). -/
def specChunksGo {α : Type} : Nat → List α → List (List α)
  | _, [] => []
  | 0, _ :: _ => []
  | fuel + 1, l@(_ :: _) => l.take maxItems :: specChunksGo fuel (l.drop maxItems)

/-- Spec-side: the chunks of at most 1000 candidates, in list order. -/
def specChunks {α : Type} (l : List α) : List (List α) :=
  specChunksGo l.length l

/-- The chunk sizes as a function of the input length alone. -/
def chunkLensGo : Nat → Nat → List Nat
  | _, 0 => []
  | 0, _ + 1 => []
  | fuel + 1, n + 1 => min maxItems (n + 1) :: chunkLensGo fuel (n + 1 - maxItems)

/-- The chunk sizes of a list of the given length. -/
def chunkLens (n : Nat) : List Nat := chunkLensGo n n

theorem specChunksGo_map_length {α : Type} :
    ∀ (fuel : Nat) (l : List α),
      (specChunksGo fuel l).map List.length = chunkLensGo fuel l.length := by
  intro fuel
  induction fuel with
  | zero =>
    intro l
    cases l with
    | nil => rfl
    | cons a t => rfl
  | succ fuel ih =>
    intro l
    cases l with
    | nil => rfl
    | cons a t =>
      simp only [specChunksGo, List.map_cons, List.length_cons, chunkLensGo,
        List.length_take, List.length_drop, ih]

theorem specChunksGo_join {α : Type} :
    ∀ (fuel : Nat) (l : List α), l.length ≤ fuel → (specChunksGo fuel l).flatten = l := by
  intro fuel
  induction fuel with
  | zero =>
    intro l hl
    cases l with
    | nil => rfl
    | cons a t => simp at hl
  | succ fuel ih =>
    intro l hl
    cases l with
    | nil => rfl
    | cons a t =>
      have hdrop : ((a :: t).drop maxItems).length ≤ fuel := by
        simp only [List.length_drop, List.length_cons, maxItems] at hl ⊢
        omega
      simp only [specChunksGo, List.flatten_cons, ih _ hdrop, List.take_append_drop]

theorem specChunksGo_le {α : Type} :
    ∀ (fuel : Nat) (l : List α), ∀ ch ∈ specChunksGo fuel l, ch.length ≤ maxItems := by
  intro fuel
  induction fuel with
  | zero =>
    intro l ch hch
    cases l with
    | nil => simp [specChunksGo] at hch
    | cons a t => simp [specChunksGo] at hch
  | succ fuel ih =>
    intro l ch hch
    cases l with
    | nil => simp [specChunksGo] at hch
    | cons a t =>
      simp only [specChunksGo, List.mem_cons] at hch
      rcases hch with h | h
      · subst h
        exact List.length_take_le maxItems (a :: t)
      · exact ih _ ch h

/-- An environment in which every batched delete request succeeds. -/
def AllDeletesOk {σ : Type} (c : S3Client σ) : Prop :=
  ∀ (s : σ) (r : DeleteRequest),
    ∃ res s', c.deleteObjects s r = (Except.ok res, s')

theorem deleteKeysGo_calls_ok {σ : Type} (c : S3Client σ) (bucketName : String)
    (hok : AllDeletesOk c) :
    ∀ (fuel : Nat) (l : List ObjectIdentifier) (s : σ),
      (deleteKeysGo c bucketName fuel l s).calls.map (fun call => call.1.Objects) =
        specChunksGo fuel l := by
  intro fuel
  induction fuel with
  | zero =>
    intro l s
    cases l with
    | nil => rfl
    | cons a t => rfl
  | succ fuel ih =>
    intro l s
    cases l with
    | nil => rfl
    | cons a t =>
      obtain ⟨res, s', heq⟩ := hok s ⟨bucketName, (a :: t).take maxItems⟩
      simp only [deleteKeysGo, heq, specChunksGo, List.map_cons, ih]

/-- C5: `deleteKeys` partitions the deletion-candidate list into
consecutive chunks of at most 1000 candidates and, when every batch
request succeeds, issues one batched delete request per chunk in list
order; for 2500 candidates it issues exactly 3 batch requests of sizes
1000, 1000, 500, in that order. -/
theorem deleteKeys_batches (σ : Type) (c : S3Client σ) (bucketName : String)
    (l : List ObjectIdentifier) (s : σ) (hok : AllDeletesOk c) :
    (deleteKeys c bucketName l s).calls.map (fun call => call.1.Objects) = specChunks l ∧
    (specChunks l).flatten = l ∧
    (∀ ch ∈ specChunks l, ch.length ≤ maxItems) ∧
    (l.length = 2500 →
      (deleteKeys c bucketName l s).calls.map (fun call => call.1.Objects.length) =
        [1000, 1000, 500]) := by
  refine ⟨deleteKeysGo_calls_ok c bucketName hok l.length l s,
    specChunksGo_join l.length l le_rfl, specChunksGo_le l.length l, ?_⟩
  intro h2500
  have h1 : (deleteKeys c bucketName l s).calls.map (fun call => call.1.Objects.length) =
      ((deleteKeys c bucketName l s).calls.map (fun call => call.1.Objects)).map
        List.length := by
    simp [List.map_map]
  have h2 := deleteKeysGo_calls_ok c bucketName hok l.length l s
  rw [h1]
  unfold deleteKeys
  rw [h2, specChunksGo_map_length, h2500]
  decide

/-- A delete capability that deletes whatever it is asked to delete. -/
def okDeleteClient : S3Client Unit where
  putObject := fun s _ => (Except.error ⟨"Unsupported", "no put capability"⟩, s)
  listObjectsV2 := fun s _ => (Except.error ⟨"Unsupported", "no list capability"⟩, s)
  deleteObjects := fun s r => (Except.ok ⟨r.Objects, []⟩, s)

/-- C5 witness: for a concrete list of 2500 candidates and an all-success
delete capability, the issued batches have sizes 1000, 1000, 500. -/
theorem deleteKeys_batches_witness :
    (deleteKeys okDeleteClient "bkt"
        (List.replicate 2500 (ObjectIdentifier.mk (some "k"))) ()).calls.map
      (fun call => call.1.Objects.length) = [1000, 1000, 500] :=
  (deleteKeys_batches Unit okDeleteClient "bkt"
      (List.replicate 2500 (ObjectIdentifier.mk (some "k"))) ()
      (fun s r => ⟨⟨r.Objects, []⟩, s, rfl⟩)).2.2.2
    (List.length_replicate 2500 (ObjectIdentifier.mk (some "k")))

/-- What one run of `gatherKeysToDelete` produced. -/
structure GatherOutcome (σ : Type) where
  keysToDelete : List ObjectIdentifier
  warnings : List String
  calls : List (ListRequest × Except JsError ListObjectsOutput)
  state : σ
deriving Repr

/-- The warning recorded when a listing request fails. -/
def listFailMsg (bucketName message : String) : String :=
  "Failed to list objects in 's3://" ++ bucketName ++ "': " ++ message

/-- The `while (listObjectsResponse.IsTruncated)` loop of
`gatherKeysToDelete`: while the previous response reports truncation,
request the next page (up to 1000 entries, passing the previous
continuation token), filter its contents against `keysToKeep`, and stop
with a single warning on the first request failure.  `none` means the
fuel ran out while the loop still wanted another page. -/
def gatherGo {σ : Type} (c : S3Client σ) (bucketName : String)
    (keysToKeep : List String) :
    Nat → ListObjectsOutput → σ → Option (GatherOutcome σ)
  | 0, prev, s => if prev.IsTruncated then none else some ⟨[], [], [], s⟩
  | fuel + 1, prev, s =>
    if prev.IsTruncated then
      match c.listObjectsV2 s ⟨bucketName, maxItems, prev.NextContinuationToken⟩ with
      | (.ok out, s1) =>
        match gatherGo c bucketName keysToKeep fuel out s1 with
        | some g =>
          some ⟨filterKeys keysToKeep out.Contents ++ g.keysToDelete, g.warnings,
            (⟨bucketName, maxItems, prev.NextContinuationToken⟩, .ok out) :: g.calls,
            g.state⟩
        | none => none
      | (.error e, s1) =>
        some ⟨[], [listFailMsg bucketName e.message],
          [(⟨bucketName, maxItems, prev.NextContinuationToken⟩, .error e)], s1⟩
    else some ⟨[], [], [], s⟩

/-- The synthetic initial response
`{ IsTruncated: true, NextContinuationToken: undefined }`. -/
def initialListResponse : ListObjectsOutput := ⟨[], true, none⟩

/-- `gatherKeysToDelete` from `lib/deleteS3.ts`, with explicit fuel for
the pagination loop. -/
def gatherKeysToDelete {σ : Type} (c : S3Client σ) (bucketName : String)
    (keysToKeep : List String) (fuel : Nat) (s : σ) : Option (GatherOutcome σ) :=
  gatherGo c bucketName keysToKeep fuel initialListResponse s

/-- An environment whose state is the list of pages still to serve: each
listing request pops and returns the next page, failing when no page is
left. -/
def pagesClient : S3Client (List ListObjectsOutput) where
  putObject := fun s _ => (Except.error ⟨"Unsupported", "no put capability"⟩, s)
  listObjectsV2 := fun s _ =>
    match s with
    | [] => (Except.error ⟨"NoSuchPage", "no page left"⟩, [])
    | p :: rest => (Except.ok p, rest)
  deleteObjects := fun s _ => (Except.error ⟨"Unsupported", "no delete capability"⟩, s)

/-- The requests the paginator should issue for a given page sequence:
1000 entries per request, the continuation token of each request being the
previous page's `NextContinuationToken` (none for the first). -/
def expectedListRequests (bucketName : String) :
    Option String → List ListObjectsOutput → List ListRequest
  | _, [] => []
  | tok, p :: rest =>
    ⟨bucketName, maxItems, tok⟩ :: expectedListRequests bucketName p.NextContinuationToken rest

theorem gatherGo_pages (bucketName : String) (keysToKeep : List String) :
    ∀ (pages : List ListObjectsOutput) (fuel : Nat) (prev : ListObjectsOutput),
      prev.IsTruncated = !pages.isEmpty →
      (∀ (i : Nat) (h : i < pages.length),
        (pages.get ⟨i, h⟩).IsTruncated = decide (i + 1 < pages.length)) →
      pages.length ≤ fuel →
      gatherGo pagesClient bucketName keysToKeep fuel prev pages =
        some ⟨(pages.map fun p => filterKeys keysToKeep p.Contents).flatten, [],
          List.zip (expectedListRequests bucketName prev.NextContinuationToken pages)
            (pages.map Except.ok), []⟩ := by
  intro pages
  induction pages with
  | nil =>
    intro fuel prev hprev htr hfuel
    simp only [List.isEmpty_nil, Bool.not_true] at hprev
    cases fuel with
    | zero => simp [gatherGo, hprev, expectedListRequests]
    | succ fuel => simp [gatherGo, hprev, expectedListRequests]
  | cons p rest ih =>
    intro fuel prev hprev htr hfuel
    simp only [List.isEmpty_cons, Bool.not_false] at hprev
    cases fuel with
    | zero => simp at hfuel
    | succ fuel =>
      have hpop : pagesClient.listObjectsV2 (p :: rest)
          ⟨bucketName, maxItems, prev.NextContinuationToken⟩ = (Except.ok p, rest) := rfl
      have hptr : p.IsTruncated = !rest.isEmpty := by
        have h0 := htr 0 (by simp)
        simp only [List.get] at h0
        rw [h0]
        cases rest with
        | nil => simp
        | cons q t => simp
      have htr' : ∀ (i : Nat) (h : i < rest.length),
          (rest.get ⟨i, h⟩).IsTruncated = decide (i + 1 < rest.length) := by
        intro i h
        have := htr (i + 1) (by simpa using Nat.succ_lt_succ h)
        simpa using this
      have hfuel' : rest.length ≤ fuel := by
        simp only [List.length_cons] at hfuel
        omega
      rw [gatherGo, hprev]
      simp only [if_true, hpop]
      rw [ih fuel p hptr htr' hfuel']
      simp [expectedListRequests]

/-- C6: for a sequence of listing pages in which each page except the last
reports `IsTruncated = true`, `gatherKeysToDelete` requests the first page
with no continuation token and at most 1000 entries per request, chains
each later request's continuation token from the previous page, visits
each page exactly once (in order), and returns the concatenation, in page
order, of `filterKeys` applied to each page's contents, with no warnings. -/
theorem gatherKeysToDelete_pages (bucketName : String) (keysToKeep : List String)
    (pages : List ListObjectsOutput) (fuel : Nat)
    (hne : pages ≠ [])
    (htr : ∀ (i : Nat) (h : i < pages.length),
      (pages.get ⟨i, h⟩).IsTruncated = decide (i + 1 < pages.length))
    (hfuel : pages.length ≤ fuel) :
    gatherKeysToDelete pagesClient bucketName keysToKeep fuel pages =
      some ⟨(pages.map fun p => filterKeys keysToKeep p.Contents).flatten, [],
        List.zip (expectedListRequests bucketName none pages) (pages.map Except.ok),
        []⟩ ∧
    (expectedListRequests bucketName none pages).length = pages.length ∧
    (expectedListRequests bucketName none pages).head?.map
      (fun r => r.ContinuationToken) = some none ∧
    (∀ r ∈ expectedListRequests bucketName none pages, r.MaxKeys = maxItems) := by
  have hprev : initialListResponse.IsTruncated = !pages.isEmpty := by
    cases pages with
    | nil => exact absurd rfl hne
    | cons p rest => rfl
  refine ⟨gatherGo_pages bucketName keysToKeep pages fuel initialListResponse hprev htr
    hfuel, ?_, ?_, ?_⟩
  · have hgen : ∀ (tok : Option String) (ps : List ListObjectsOutput),
        (expectedListRequests bucketName tok ps).length = ps.length := by
      intro tok ps
      induction ps generalizing tok with
      | nil => rfl
      | cons p rest ih =>
        simp only [expectedListRequests, List.length_cons, ih]
    exact hgen none pages
  · cases pages with
    | nil => exact absurd rfl hne
    | cons p rest => rfl
  · clear htr hfuel hne hprev
    have hgen : ∀ (tok : Option String) (ps : List ListObjectsOutput),
        ∀ r ∈ expectedListRequests bucketName tok ps, r.MaxKeys = maxItems := by
      intro tok ps
      induction ps generalizing tok with
      | nil => intro r hr; simp [expectedListRequests] at hr
      | cons p rest ih =>
        intro r hr
        simp only [expectedListRequests, List.mem_cons] at hr
        rcases hr with h | h
        · subst h; rfl
        · exact ih p.NextContinuationToken r h
    exact hgen none pages

/-- C6 witness: a concrete two-page listing is visited once per page and
yields the filtered concatenation of both pages. -/
theorem gatherKeysToDelete_pages_witness :
    gatherKeysToDelete pagesClient "bkt" ["keep"] 2
        [⟨[⟨some "keep"⟩, ⟨some "a"⟩], true, some "t1"⟩,
         ⟨[⟨none⟩, ⟨some "b"⟩], false, none⟩] =
      some ⟨[⟨some "a"⟩, ⟨some "b"⟩], [],
        [(⟨"bkt", maxItems, none⟩, Except.ok ⟨[⟨some "keep"⟩, ⟨some "a"⟩], true, some "t1"⟩),
         (⟨"bkt", maxItems, some "t1"⟩, Except.ok ⟨[⟨none⟩, ⟨some "b"⟩], false, none⟩)],
        []⟩ := by
  have h := (gatherKeysToDelete_pages "bkt" ["keep"]
    [⟨[⟨some "keep"⟩, ⟨some "a"⟩], true, some "t1"⟩,
     ⟨[⟨none⟩, ⟨some "b"⟩], false, none⟩] 2
    (by simp) (by decide) (by simp)).1
  rw [h]
  rfl

/-- A project file as enumerated by `doWithFiles`: its path, its base
name, and its content (`getContentBuffer` modelled as a string). -/
structure FileInfo where
  path : String
  name : String
  content : String
deriving Repr, DecidableEq

/-- The external collaborators of the upload phase: the enumeration
produced by `doWithFiles` (in order), `project.getFile` (path to content
of an existing file), `JSON.parse` on a companion file's content (error
message on parse failure), and `mime.lookup` (`none` models `false`). -/
structure UploadEnv where
  files : List FileInfo
  getFile : String → Option String
  parseJson : String → Except String PutOverrides
  mimeLookup : String → Option String

/-- `PublishToS3Options`, restricted to the fields the upload and delete
phases read (`pathTranslation` is applied to the file path; the goal
invocation argument carries no further information here). -/
structure PublishOptions where
  bucketName : String
  region : String
  pathTranslation : String → String
  sync : Bool
  paramsExt : Option String
deriving Inhabited

/-- Whether `post` is a suffix of `s`, on the character lists. -/
def strEndsWith (s post : String) : Bool :=
  List.isSuffixOf post.data s.data

/-- Remove the last `n` characters of `s`. -/
def strDropRight (s : String) (n : Nat) : String :=
  String.mk (s.data.take (s.data.length - n))

/-- `escapeSpecialCharacters(file.name)` builds the regex `name$` with the
name's regex metacharacters escaped, so `file.path.replace(...)` replaces
the final occurrence of `name` exactly when the path ends with it. -/
def companionPath (filePath fileName ext : String) : String :=
  if strEndsWith filePath fileName then
    (strDropRight filePath fileName.length) ++ "." ++ fileName ++ ext
  else filePath

/-- The warning recorded when a companion params file fails to parse. -/
def paramsParseFailMsg (paramsPath message : String) : String :=
  "Failed to read and parse S3 params file '" ++ paramsPath ++
    "', using defaults: " ++ message

/-- `gatherParamsFromCompanionFile` from `lib/putS3.ts`: look up the
sidecar `.name.ext` next to the file; absence yields no overrides, a parse
failure yields no overrides plus one warning. -/
def gatherParamsFromCompanionFile (env : UploadEnv) (file : FileInfo)
    (companionFileExtension : String) : PutOverrides × List String :=
  let paramsPath := companionPath file.path file.name companionFileExtension
  match env.getFile paramsPath with
  | none => ({}, [])
  | some content =>
    match env.parseJson content with
    | .ok fileParams => (fileParams, [])
    | .error msg => ({}, [paramsParseFailMsg paramsPath msg])

/-- The overrides resolved for a file given the configured options. -/
def resolvedOverrides (env : UploadEnv) (params : PublishOptions)
    (file : FileInfo) : PutOverrides :=
  match params.paramsExt with
  | some ext => (gatherParamsFromCompanionFile env file ext).1
  | none => {}

/-- The base request built for a file before the descriptor spread. -/
def basePutRequest (env : UploadEnv) (params : PublishOptions)
    (file : FileInfo) : PutRequest :=
  { Bucket := params.bucketName
    Key := params.pathTranslation file.path
    Body := file.content
    ContentType := (env.mimeLookup file.path).getD "text/plain" }

/-- The per-file upload failure warning. -/
def putFailMsg (filePath bucketName key message : String) : String :=
  "Failed to put '" ++ filePath ++ "' to 's3://" ++ bucketName ++ "/" ++ key ++
    "': " ++ message

/-- One issued `putObject` call: the request, the derived key recorded by
`keys.push(key)` on success, and the observed outcome. -/
structure PutCall where
  request : PutRequest
  key : String
  outcome : Except JsError Unit
deriving Repr

/-- What one run of `putFiles` produced. -/
structure PutOutcome (σ : Type) where
  fileCount : Nat
  keys : List String
  warnings : List String
  calls : List PutCall
  state : σ
deriving Repr

/-- The `doWithFiles` loop of `putFiles` in `lib/putS3.ts` with the
run-scoped `pleaseGiveUp` latch: once a put fails with code
`InvalidAccessKeyId`, every later file is skipped (log note only — no
count, no warning, no request). -/
def putFilesGo {σ : Type} (c : S3Client σ) (env : UploadEnv)
    (params : PublishOptions) :
    List FileInfo → Bool → σ → PutOutcome σ
  | [], _, s => ⟨0, [], [], [], s⟩
  | file :: rest, pleaseGiveUp, s =>
    if pleaseGiveUp then putFilesGo c env params rest pleaseGiveUp s
    else
      let key := params.pathTranslation file.path
      let fp :=
        match params.paramsExt with
        | some ext => gatherParamsFromCompanionFile env file ext
        | none => ({}, [])
      let objectParams := spreadOverrides (basePutRequest env params file) fp.1
      match c.putObject s objectParams with
      | (.ok _, s1) =>
        let r := putFilesGo c env params rest false s1
        ⟨r.fileCount + 1, key :: r.keys, fp.2 ++ r.warnings,
          ⟨objectParams, key, .ok ()⟩ :: r.calls, r.state⟩
      | (.error e, s1) =>
        let giveUpNext := e.code == "InvalidAccessKeyId"
        let r := putFilesGo c env params rest giveUpNext s1
        ⟨r.fileCount + 1, r.keys,
          fp.2 ++ putFailMsg file.path params.bucketName key e.message :: r.warnings,
          ⟨objectParams, key, .error e⟩ :: r.calls, r.state⟩

/-- `putFiles` from `lib/putS3.ts`. -/
def putFiles {σ : Type} (c : S3Client σ) (env : UploadEnv)
    (params : PublishOptions) (s : σ) : PutOutcome σ :=
  putFilesGo c env params env.files false s

/-- Once the latch is set, no further file contributes anything. -/
theorem putFilesGo_giveUp {σ : Type} (c : S3Client σ) (env : UploadEnv)
    (params : PublishOptions) :
    ∀ (files : List FileInfo) (s : σ),
      putFilesGo c env params files true s = ⟨0, [], [], [], s⟩ := by
  intro files
  induction files with
  | nil => intro s; rfl
  | cons f rest ih => intro s; simp only [putFilesGo, if_true, ih]

/-- The keys list is exactly the derived keys of the successful calls. -/
theorem putFilesGo_keys_eq {σ : Type} (c : S3Client σ) (env : UploadEnv)
    (params : PublishOptions) :
    ∀ (files : List FileInfo) (g : Bool) (s : σ),
      (putFilesGo c env params files g s).keys =
        ((putFilesGo c env params files g s).calls.filter
          (fun call => call.outcome.isOk)).map (fun call => call.key) := by
  intro files
  induction files with
  | nil => intro g s; rfl
  | cons f rest ih =>
    intro g s
    by_cases hg : g
    · subst hg
      simp only [putFilesGo, if_true]
      exact ih true s
    · simp only [Bool.not_eq_true] at hg
      subst hg
      simp only [putFilesGo, Bool.false_eq_true, if_false]
      rcases hput : c.putObject s
          (spreadOverrides (basePutRequest env params f)
            (match params.paramsExt with
              | some ext => gatherParamsFromCompanionFile env f ext
              | none => ({}, [])).1) with ⟨out, s1⟩
      cases out with
      | ok u =>
        simp [hput, List.filter_cons, Except.isOk, Except.toBool, ih]
      | error e =>
        simp [hput, List.filter_cons, Except.isOk, Except.toBool, ih]

/-- The result record of `pushToS3` in `lib/publishToS3.ts`. -/
structure PushToS3Result where
  bucketUrl : String
  warnings : List String
  fileCount : Nat
  deleted : Nat
deriving Repr, DecidableEq

/-- The static website URL `http://<bucket>.s3-website.<region>.amazonaws.com/`. -/
def bucketUrlOf (bucketName region : String) : String :=
  "http://" ++ bucketName ++ ".s3-website." ++ region ++ ".amazonaws.com/"

/-- The full request/response trace of one `pushToS3` run, in phase order:
the put calls, the `keysToKeep` handed to `gatherKeysToDelete`, the listing
calls, the delete calls, and the final environment state. -/
structure PushTrace (σ : Type) where
  putCalls : List PutCall
  keysToKeep : List String
  listCalls : List (ListRequest × Except JsError ListObjectsOutput)
  deleteCalls : List (DeleteRequest × Except JsError DeleteObjectsResult)
  state : σ
deriving Repr

/-- `pushToS3` from `lib/publishToS3.ts`: always run `putFiles`; when
`sync` is set, run `gatherKeysToDelete` on the successfully pushed keys and
then `deleteKeys` on the candidates; warnings concatenate in phase order.
`none` only when the pagination fuel runs out. -/
def pushToS3 {σ : Type} (c : S3Client σ) (env : UploadEnv)
    (params : PublishOptions) (listFuel : Nat) (s : σ) :
    Option (PushToS3Result × PushTrace σ) :=
  let p := putFiles c env params s
  if params.sync then
    match gatherKeysToDelete c params.bucketName p.keys listFuel p.state with
    | none => none
    | some g =>
      let d := deleteKeys c params.bucketName g.keysToDelete g.state
      some ({ bucketUrl := bucketUrlOf params.bucketName params.region
              warnings := p.warnings ++ (g.warnings ++ d.warnings)
              fileCount := p.fileCount
              deleted := d.deleted },
            ⟨p.calls, p.keys, g.calls, d.calls, d.state⟩)
  else
    some ({ bucketUrl := bucketUrlOf params.bucketName params.region
            warnings := p.warnings
            fileCount := p.fileCount
            deleted := 0 },
          ⟨p.calls, p.keys, [], [], p.state⟩)

/-- C2: in every reconciliation run, the keys-to-keep list passed to the
delete phase is exactly the list of derived keys of the put calls that
completed without error, in order: a key is appended only after its
`putObject` succeeded, so a failed upload never contributes a key. -/
theorem pushToS3_keysToKeep (σ : Type) (c : S3Client σ) (env : UploadEnv)
    (params : PublishOptions) (listFuel : Nat) (s : σ)
    (r : PushToS3Result) (t : PushTrace σ)
    (h : pushToS3 c env params listFuel s = some (r, t)) :
    t.keysToKeep =
      (t.putCalls.filter (fun call => call.outcome.isOk)).map
        (fun call => call.key) := by
  have hkeys := putFilesGo_keys_eq c env params env.files false s
  unfold pushToS3 at h
  by_cases hsync : params.sync
  · simp only [hsync, if_true] at h
    rcases hg : gatherKeysToDelete c params.bucketName
        (putFiles c env params s).keys listFuel (putFiles c env params s).state with
      _ | g
    · rw [hg] at h; cases h
    · rw [hg] at h
      cases h
      exact hkeys
  · simp only [hsync, if_false] at h
    cases h
    exact hkeys

/-- A put capability that accepts everything (state: number of calls). -/
def okPutClient : S3Client Nat where
  putObject := fun n _ => (Except.ok (), n + 1)
  listObjectsV2 := fun n _ => (Except.error ⟨"Unsupported", "no list capability"⟩, n)
  deleteObjects := fun n _ => (Except.error ⟨"Unsupported", "no delete capability"⟩, n)

/-- C2 witness: a concrete one-file run hands exactly the derived key of
its successful put to the delete phase. -/
theorem pushToS3_keysToKeep_witness :
    (UploadEnv.mk [⟨"site/a.html", "a.html", "hello"⟩] (fun _ => none)
        (fun _ => Except.error "bad") (fun _ => some "text/html")).files.length = 1 ∧
    pushToS3 okPutClient
        (UploadEnv.mk [⟨"site/a.html", "a.html", "hello"⟩] (fun _ => none)
          (fun _ => Except.error "bad") (fun _ => some "text/html"))
        ⟨"bkt", "us-east-1", id, false, none⟩ 0 0 =
      some ({ bucketUrl := bucketUrlOf "bkt" "us-east-1", warnings := [],
              fileCount := 1, deleted := 0 },
            ⟨[⟨⟨"bkt", "site/a.html", "hello", "text/html"⟩, "site/a.html", .ok ()⟩],
              ["site/a.html"], [], [], 1⟩) ∧
    (PushTrace.mk (σ := Nat)
        [⟨⟨"bkt", "site/a.html", "hello", "text/html"⟩, "site/a.html", .ok ()⟩]
        ["site/a.html"] [] [] 1).keysToKeep =
      ((PushTrace.mk (σ := Nat)
          [⟨⟨"bkt", "site/a.html", "hello", "text/html"⟩, "site/a.html", .ok ()⟩]
          ["site/a.html"] [] [] 1).putCalls.filter
        (fun call => call.outcome.isOk)).map (fun call => call.key) := by
  refine ⟨rfl, rfl, ?_⟩
  exact pushToS3_keysToKeep Nat okPutClient
    (UploadEnv.mk [⟨"site/a.html", "a.html", "hello"⟩] (fun _ => none)
      (fun _ => Except.error "bad") (fun _ => some "text/html"))
    ⟨"bkt", "us-east-1", id, false, none⟩ 0 0 _ _ rfl

/-- A put capability answering the n-th put call (0-based) according to a
script; the state counts the calls made so far. -/
def scriptedPutClient (script : Nat → PutRequest → Except JsError Unit) :
    S3Client Nat where
  putObject := fun n r => (script n r, n + 1)
  listObjectsV2 := fun n _ => (Except.error ⟨"Unsupported", "no list capability"⟩, n)
  deleteObjects := fun n _ => (Except.error ⟨"Unsupported", "no delete capability"⟩, n)

/-- The credential error code the source compares against. -/
def credentialCode : String := "InvalidAccessKeyId"

theorem putFilesGo_credential_stop (script : Nat → PutRequest → Except JsError Unit)
    (env : UploadEnv) (params : PublishOptions) :
    ∀ (k : Nat) (files : List FileInfo) (i : Nat),
      1 ≤ k → k ≤ files.length →
      (∀ j, j < k - 1 → ∀ r e, script (i + j) r = Except.error e →
        e.code ≠ credentialCode) →
      (∀ r, ∃ e, script (i + (k - 1)) r = Except.error e ∧ e.code = credentialCode) →
      putFilesGo (scriptedPutClient script) env params files false i =
        putFilesGo (scriptedPutClient script) env params (files.take k) false i ∧
      (putFilesGo (scriptedPutClient script) env params files false i).calls.length = k ∧
      (putFilesGo (scriptedPutClient script) env params files false i).keys.length
        ≤ k - 1 ∧
      (putFilesGo (scriptedPutClient script) env params files false i).fileCount = k := by
  intro k
  induction k with
  | zero => intro files i hk1 _ _ _; omega
  | succ k ih =>
    intro files i _ hk2 hbefore hat
    cases files with
    | nil => simp at hk2
    | cons f rest =>
      cases k with
      | zero =>
        obtain ⟨e, hse, hcode⟩ :=
          hat (spreadOverrides (basePutRequest env params f)
            (match params.paramsExt with
              | some ext => gatherParamsFromCompanionFile env f ext
              | none => ({}, [])).1)
        have hse' : script i
            (spreadOverrides (basePutRequest env params f)
              (match params.paramsExt with
                | some ext => gatherParamsFromCompanionFile env f ext
                | none => ({}, [])).1) = Except.error e := by
          have harith : i + (0 + 1 - 1) = i := by omega
          rwa [harith] at hse
        have hcli : (scriptedPutClient script).putObject i
            (spreadOverrides (basePutRequest env params f)
              (match params.paramsExt with
                | some ext => gatherParamsFromCompanionFile env f ext
                | none => ({}, [])).1) = (Except.error e, i + 1) := by
          simp [scriptedPutClient, hse']
        have hgu : (e.code == "InvalidAccessKeyId") = true := by
          simp [hcode, credentialCode]
        simp only [putFilesGo, Bool.false_eq_true, if_false, hcli, hgu,
          putFilesGo_giveUp, List.take_succ_cons, List.take_zero]
        simp
      | succ k' =>
        have hkk : k' + 1 + 1 - 1 = k' + 1 := rfl
        obtain hscr : ∀ r, script i r = Except.ok () ∨
            (∃ e, script i r = Except.error e ∧
              (e.code == "InvalidAccessKeyId") = false) := by
          intro r
          cases hs : script i r with
          | ok u => left; cases u; rfl
          | error e =>
            right
            refine ⟨e, rfl, ?_⟩
            have hne := hbefore 0 (by omega) r e (by simpa using hs)
            simp only [credentialCode] at hne
            simp [hne]
        have hbefore' : ∀ j, j < k' + 1 - 1 → ∀ r e,
            script (i + 1 + j) r = Except.error e → e.code ≠ credentialCode := by
          intro j hj r e hs
          refine hbefore (j + 1) (by omega) r e ?_
          have : i + (j + 1) = i + 1 + j := by omega
          rwa [this]
        have hat' : ∀ r, ∃ e, script (i + 1 + (k' + 1 - 1)) r = Except.error e ∧
            e.code = credentialCode := by
          intro r
          obtain ⟨e, hse, hcode⟩ := hat r
          refine ⟨e, ?_, hcode⟩
          have : i + (k' + 1 + 1 - 1) = i + 1 + (k' + 1 - 1) := by omega
          rwa [this] at hse
        have ihr := ih rest (i + 1) (by omega) (by
          simp only [List.length_cons] at hk2; omega) hbefore' hat'
        rcases hscr (spreadOverrides (basePutRequest env params f)
            (match params.paramsExt with
              | some ext => gatherParamsFromCompanionFile env f ext
              | none => ({}, [])).1) with hok | ⟨e, herr, hcode⟩
        · have hcli : (scriptedPutClient script).putObject i
              (spreadOverrides (basePutRequest env params f)
                (match params.paramsExt with
                  | some ext => gatherParamsFromCompanionFile env f ext
                  | none => ({}, [])).1) = (Except.ok (), i + 1) := by
            simp [scriptedPutClient, hok]
          refine ⟨?_, ?_, ?_, ?_⟩
          · simp only [putFilesGo, Bool.false_eq_true, if_false, hcli,
              List.take_succ_cons]
            rw [ihr.1]
          · simp only [putFilesGo, Bool.false_eq_true, if_false, hcli,
              List.length_cons]
            rw [ihr.2.1]
          · simp only [putFilesGo, Bool.false_eq_true, if_false, hcli,
              List.length_cons]
            have := ihr.2.2.1
            omega
          · simp only [putFilesGo, Bool.false_eq_true, if_false, hcli]
            rw [ihr.2.2.2]
        · have hcli : (scriptedPutClient script).putObject i
              (spreadOverrides (basePutRequest env params f)
                (match params.paramsExt with
                  | some ext => gatherParamsFromCompanionFile env f ext
                  | none => ({}, [])).1) = (Except.error e, i + 1) := by
            simp [scriptedPutClient, herr]
          refine ⟨?_, ?_, ?_, ?_⟩
          · simp only [putFilesGo, Bool.false_eq_true, if_false, hcli, hcode,
              List.take_succ_cons]
            rw [ihr.1]
          · simp only [putFilesGo, Bool.false_eq_true, if_false, hcli, hcode,
              List.length_cons]
            rw [ihr.2.1]
          · simp only [putFilesGo, Bool.false_eq_true, if_false, hcli, hcode]
            have := ihr.2.2.1
            omega
          · simp only [putFilesGo, Bool.false_eq_true, if_false, hcli, hcode]
            rw [ihr.2.2.2]

/-- C3: if the put for file `k` (1-based) fails with a credential-class
error and no earlier put failed with one, `putFiles` never submits any
file after `k` to the put capability (the run equals the run on the first
`k` files, and exactly `k` put calls are issued), the successful-key list
has length at most `k - 1`, and the counts gathered before the failure are
still returned (`fileCount = k`). -/
theorem putFiles_credential_stop (script : Nat → PutRequest → Except JsError Unit)
    (env : UploadEnv) (params : PublishOptions) (k : Nat)
    (hk1 : 1 ≤ k) (hk2 : k ≤ env.files.length)
    (hbefore : ∀ j, j < k - 1 → ∀ r e, script j r = Except.error e →
      e.code ≠ credentialCode)
    (hat : ∀ r, ∃ e, script (k - 1) r = Except.error e ∧ e.code = credentialCode) :
    putFiles (scriptedPutClient script) env params 0 =
      putFilesGo (scriptedPutClient script) env params (env.files.take k) false 0 ∧
    (putFiles (scriptedPutClient script) env params 0).calls.length = k ∧
    (putFiles (scriptedPutClient script) env params 0).keys.length ≤ k - 1 ∧
    (putFiles (scriptedPutClient script) env params 0).fileCount = k := by
  have h := putFilesGo_credential_stop script env params k env.files 0 hk1 hk2
    (by simpa using hbefore) (by simpa using hat)
  exact h

/-- C3 witness: with two files and a credential failure on the first put,
only one put call is made, no key is recorded, and `fileCount = 1`. -/
theorem putFiles_credential_stop_witness :
    (putFiles (scriptedPutClient (fun _ _ => Except.error ⟨"InvalidAccessKeyId", "denied"⟩))
        (UploadEnv.mk [⟨"a", "a", "x"⟩, ⟨"b", "b", "y"⟩] (fun _ => none)
          (fun _ => Except.error "bad") (fun _ => none))
        ⟨"bkt", "us-east-1", id, false, none⟩ 0).calls.length = 1 ∧
    (putFiles (scriptedPutClient (fun _ _ => Except.error ⟨"InvalidAccessKeyId", "denied"⟩))
        (UploadEnv.mk [⟨"a", "a", "x"⟩, ⟨"b", "b", "y"⟩] (fun _ => none)
          (fun _ => Except.error "bad") (fun _ => none))
        ⟨"bkt", "us-east-1", id, false, none⟩ 0).keys.length ≤ 0 ∧
    (putFiles (scriptedPutClient (fun _ _ => Except.error ⟨"InvalidAccessKeyId", "denied"⟩))
        (UploadEnv.mk [⟨"a", "a", "x"⟩, ⟨"b", "b", "y"⟩] (fun _ => none)
          (fun _ => Except.error "bad") (fun _ => none))
        ⟨"bkt", "us-east-1", id, false, none⟩ 0).fileCount = 1 := by
  have h := putFiles_credential_stop
    (fun _ _ => Except.error ⟨"InvalidAccessKeyId", "denied"⟩)
    (UploadEnv.mk [⟨"a", "a", "x"⟩, ⟨"b", "b", "y"⟩] (fun _ => none)
      (fun _ => Except.error "bad") (fun _ => none))
    ⟨"bkt", "us-east-1", id, false, none⟩ 1 (by decide) (by decide)
    (by intro j hj; omega)
    (by intro r; exact ⟨⟨"InvalidAccessKeyId", "denied"⟩, rfl, rfl⟩)
  exact ⟨h.2.1, h.2.2.1, h.2.2.2⟩

theorem resolvedOverrides_eq (env : UploadEnv) (params : PublishOptions)
    (f : FileInfo) :
    resolvedOverrides env params f =
      (match params.paramsExt with
        | some ext => gatherParamsFromCompanionFile env f ext
        | none => ({}, [])).1 := by
  unfold resolvedOverrides
  cases params.paramsExt with
  | none => rfl
  | some ext => rfl

/-- C9: a field present in the resolved descriptor overrides replaces the
same-named base field (`Bucket`, `Key`, `Body`, `ContentType`) in the put
request `putFiles` issues; in particular a descriptor `ContentType` of
`application/custom` makes the issued request's `ContentType` equal to
`application/custom` regardless of the inferred MIME type. -/
theorem putFiles_override_precedence (σ : Type) (c : S3Client σ) (env : UploadEnv)
    (params : PublishOptions) (f : FileInfo) (rest : List FileInfo) (s : σ)
    (base : PutRequest) (ov : PutOverrides) :
    (∀ v, ov.Bucket = some v → (spreadOverrides base ov).Bucket = v) ∧
    (∀ v, ov.Key = some v → (spreadOverrides base ov).Key = v) ∧
    (∀ v, ov.Body = some v → (spreadOverrides base ov).Body = v) ∧
    (∀ v, ov.ContentType = some v → (spreadOverrides base ov).ContentType = v) ∧
    ((putFilesGo c env params (f :: rest) false s).calls.head?).map
        (fun call => call.request) =
      some (spreadOverrides (basePutRequest env params f)
        (resolvedOverrides env params f)) ∧
    ((resolvedOverrides env params f).ContentType = some "application/custom" →
      ∀ call ∈ ((putFilesGo c env params (f :: rest) false s).calls.head?),
        call.request.ContentType = "application/custom") := by
  have hhead : ((putFilesGo c env params (f :: rest) false s).calls.head?).map
      (fun call => call.request) =
      some (spreadOverrides (basePutRequest env params f)
        (resolvedOverrides env params f)) := by
    rw [resolvedOverrides_eq]
    rcases hput : c.putObject s
        (spreadOverrides (basePutRequest env params f)
          (match params.paramsExt with
            | some ext => gatherParamsFromCompanionFile env f ext
            | none => ({}, [])).1) with ⟨out, s1⟩
    cases out with
    | ok u => simp [putFilesGo, hput]
    | error e => simp [putFilesGo, hput]
  refine ⟨?_, ?_, ?_, ?_, hhead, ?_⟩
  · intro v hv; simp [spreadOverrides, hv]
  · intro v hv; simp [spreadOverrides, hv]
  · intro v hv; simp [spreadOverrides, hv]
  · intro v hv; simp [spreadOverrides, hv]
  · intro hct call hcall
    have h1 : (putFilesGo c env params (f :: rest) false s).calls.head? =
        some call := hcall
    have h2 : some call.request = some (spreadOverrides (basePutRequest env params f)
        (resolvedOverrides env params f)) := by
      rw [← hhead, h1]
      rfl
    have h3 := Option.some.inj h2
    rw [h3]
    simp [spreadOverrides, hct]

/-- The concrete environment of the override-precedence witness: one file
with a companion descriptor that sets `ContentType` to
`application/custom`. -/
def customCtEnv : UploadEnv :=
  { files := [⟨"site/a.html", "a.html", "hello"⟩]
    getFile := fun p =>
      if p = "site/.a.html.s3params" then some "ctJson" else none
    parseJson := fun content =>
      if content = "ctJson" then
        Except.ok { ContentType := some "application/custom" }
      else Except.error "unexpected token"
    mimeLookup := fun _ => some "text/html" }

/-- C9 witness: with a concrete descriptor carrying
`ContentType: application/custom`, the issued put request's `ContentType`
is `application/custom`, not the inferred `text/html`. -/
theorem putFiles_override_precedence_witness :
    (resolvedOverrides customCtEnv ⟨"bkt", "us-east-1", id, false, some ".s3params"⟩
      ⟨"site/a.html", "a.html", "hello"⟩).ContentType = some "application/custom" ∧
    ∀ call ∈ ((putFilesGo okPutClient customCtEnv
        ⟨"bkt", "us-east-1", id, false, some ".s3params"⟩
        [⟨"site/a.html", "a.html", "hello"⟩] false 0).calls.head?),
      call.request.ContentType = "application/custom" := by
  refine ⟨rfl, ?_⟩
  exact (putFiles_override_precedence Nat okPutClient customCtEnv
    ⟨"bkt", "us-east-1", id, false, some ".s3params"⟩
    ⟨"site/a.html", "a.html", "hello"⟩ [] 0
    ⟨"bkt", "site/a.html", "hello", "text/html"⟩ {}).2.2.2.2.2 rfl

/-- C10: when `sync` is not true, `pushToS3` issues no listing and no
delete request at all: the trace's listing and delete call logs are empty,
`deleted = 0`, the warnings are exactly the upload-phase warnings, and the
environment state is exactly the state after the per-file puts. -/
theorem pushToS3_no_sync (σ : Type) (c : S3Client σ) (env : UploadEnv)
    (params : PublishOptions) (listFuel : Nat) (s : σ)
    (hsync : params.sync = false) :
    pushToS3 c env params listFuel s =
      some ({ bucketUrl := bucketUrlOf params.bucketName params.region
              warnings := (putFiles c env params s).warnings
              fileCount := (putFiles c env params s).fileCount
              deleted := 0 },
            ⟨(putFiles c env params s).calls, (putFiles c env params s).keys, [], [],
              (putFiles c env params s).state⟩) := by
  unfold pushToS3
  rw [hsync]
  simp

/-- C10 witness: a concrete no-sync run issues only the per-file put. -/
theorem pushToS3_no_sync_witness :
    (PublishOptions.mk "bkt" "us-east-1" id false none).sync = false ∧
    pushToS3 okPutClient
        (UploadEnv.mk [⟨"site/a.html", "a.html", "hello"⟩] (fun _ => none)
          (fun _ => Except.error "bad") (fun _ => some "text/html"))
        ⟨"bkt", "us-east-1", id, false, none⟩ 0 0 =
      some ({ bucketUrl := bucketUrlOf "bkt" "us-east-1"
              warnings := (putFiles okPutClient
                (UploadEnv.mk [⟨"site/a.html", "a.html", "hello"⟩] (fun _ => none)
                  (fun _ => Except.error "bad") (fun _ => some "text/html"))
                ⟨"bkt", "us-east-1", id, false, none⟩ 0).warnings
              fileCount := (putFiles okPutClient
                (UploadEnv.mk [⟨"site/a.html", "a.html", "hello"⟩] (fun _ => none)
                  (fun _ => Except.error "bad") (fun _ => some "text/html"))
                ⟨"bkt", "us-east-1", id, false, none⟩ 0).fileCount
              deleted := 0 },
            ⟨(putFiles okPutClient
                (UploadEnv.mk [⟨"site/a.html", "a.html", "hello"⟩] (fun _ => none)
                  (fun _ => Except.error "bad") (fun _ => some "text/html"))
                ⟨"bkt", "us-east-1", id, false, none⟩ 0).calls,
              (putFiles okPutClient
                (UploadEnv.mk [⟨"site/a.html", "a.html", "hello"⟩] (fun _ => none)
                  (fun _ => Except.error "bad") (fun _ => some "text/html"))
                ⟨"bkt", "us-east-1", id, false, none⟩ 0).keys, [], [],
              (putFiles okPutClient
                (UploadEnv.mk [⟨"site/a.html", "a.html", "hello"⟩] (fun _ => none)
                  (fun _ => Except.error "bad") (fun _ => some "text/html"))
                ⟨"bkt", "us-east-1", id, false, none⟩ 0).state⟩) :=
  ⟨rfl, pushToS3_no_sync Nat okPutClient
    (UploadEnv.mk [⟨"site/a.html", "a.html", "hello"⟩] (fun _ => none)
      (fun _ => Except.error "bad") (fun _ => some "text/html"))
    ⟨"bkt", "us-east-1", id, false, none⟩ 0 0 rfl⟩

/-- `ExecuteGoalResult` restricted to what `executePublishToS3` returns:
the result code and the optional message. -/
structure GoalResult where
  code : Nat
  message : Option String
deriving Repr, DecidableEq

/-- The failure message
`0 files uploaded. <n> warnings, including: <first warning>`. -/
def zeroFilesMsg (warnings : List String) : String :=
  "0 files uploaded. " ++ toString warnings.length ++ " warnings, including: " ++
    templateStr warnings.head?

/-- The goal-level decision of `executePublishToS3` in
`lib/publishToS3.ts`: missing SHA returns code 99 before any storage
operation; otherwise, after `pushToS3`, code 1 exactly when warnings exist
and `result.fileCount === 0`, and code 0 otherwise. -/
def executePublishToS3 {σ : Type} (sha : Option String) (c : S3Client σ)
    (env : UploadEnv) (params : PublishOptions) (listFuel : Nat) (s : σ) :
    Option GoalResult :=
  match sha with
  | none => some ⟨99, some "SHA is not defined. I need that"⟩
  | some _ =>
    match pushToS3 c env params listFuel s with
    | none => none
    | some (result, _) =>
      if 0 < result.warnings.length then
        if result.fileCount = 0 then some ⟨1, some (zeroFilesMsg result.warnings)⟩
        else some ⟨0, none⟩
      else some ⟨0, none⟩

/-- A put capability that rejects every request with a non-credential
error. -/
def denyPutClient : S3Client Nat where
  putObject := fun n _ => (Except.error ⟨"AccessDenied", "denied"⟩, n + 1)
  listObjectsV2 := fun n _ => (Except.error ⟨"Unsupported", "no list capability"⟩, n)
  deleteObjects := fun n _ => (Except.error ⟨"Unsupported", "no delete capability"⟩, n)

/-- C7 counterexample: a run whose single upload is attempted but fails
ends with one warning and zero successfully uploaded files, yet the goal
executor reports success (code 0): the `fileCount === 0` test counts
attempted files, not successful ones. -/
theorem executePublishToS3_warning_counterexample :
    (pushToS3 denyPutClient
        (UploadEnv.mk [⟨"site/a.html", "a.html", "hello"⟩] (fun _ => none)
          (fun _ => Except.error "bad") (fun _ => some "text/html"))
        ⟨"bkt", "us-east-1", id, false, none⟩ 0 0).map
      (fun rt => rt.1.warnings.length) = some 1 ∧
    (pushToS3 denyPutClient
        (UploadEnv.mk [⟨"site/a.html", "a.html", "hello"⟩] (fun _ => none)
          (fun _ => Except.error "bad") (fun _ => some "text/html"))
        ⟨"bkt", "us-east-1", id, false, none⟩ 0 0).map
      (fun rt => rt.2.keysToKeep.length) = some 0 ∧
    executePublishToS3 (some "abc123") denyPutClient
        (UploadEnv.mk [⟨"site/a.html", "a.html", "hello"⟩] (fun _ => none)
          (fun _ => Except.error "bad") (fun _ => some "text/html"))
        ⟨"bkt", "us-east-1", id, false, none⟩ 0 0 = some ⟨0, none⟩ := by
  refine ⟨rfl, rfl, rfl⟩

/-- C7 amended: the goal executor reports failure (code 1) exactly when
the run ends with a non-empty warnings list and `fileCount = 0`, where
`fileCount` counts attempted files (an attempted-but-failed upload still
counts); any run with at least one attempted file, or with no warnings,
returns code 0, so warnings alone never fail it. -/
theorem executePublishToS3_failure_code (σ : Type) (c : S3Client σ)
    (env : UploadEnv) (params : PublishOptions) (listFuel : Nat) (s : σ)
    (sha : String) (r : PushToS3Result) (t : PushTrace σ)
    (h : pushToS3 c env params listFuel s = some (r, t)) :
    executePublishToS3 (some sha) c env params listFuel s =
      (if 0 < r.warnings.length ∧ r.fileCount = 0 then
        some ⟨1, some (zeroFilesMsg r.warnings)⟩
      else some ⟨0, none⟩) := by
  unfold executePublishToS3
  rw [h]
  by_cases hw : 0 < r.warnings.length
  · by_cases hf : r.fileCount = 0
    · simp [hw, hf]
    · simp [hw, hf]
  · simp [hw]

/-- C7 witness: a concrete run with a warning and `fileCount = 0` (the
warning comes from the sync phase, no file is enumerated) is reported as
failed with code 1. -/
theorem executePublishToS3_failure_code_witness :
    executePublishToS3 (some "abc123") pagesClient
        (UploadEnv.mk [] (fun _ => none) (fun _ => Except.error "bad") (fun _ => none))
        ⟨"bkt", "us-east-1", id, true, none⟩ 1 [] =
      some ⟨1, some (zeroFilesMsg [listFailMsg "bkt" "no page left"])⟩ := by
  have h := executePublishToS3_failure_code (List ListObjectsOutput) pagesClient
    (UploadEnv.mk [] (fun _ => none) (fun _ => Except.error "bad") (fun _ => none))
    ⟨"bkt", "us-east-1", id, true, none⟩ 1 [] "abc123"
    { bucketUrl := bucketUrlOf "bkt" "us-east-1"
      warnings := [listFailMsg "bkt" "no page left"]
      fileCount := 0
      deleted := 0 }
    ⟨[], [], [(⟨"bkt", maxItems, none⟩,
      Except.error ⟨"NoSuchPage", "no page left"⟩)], [], []⟩ rfl
  rw [h]
  rfl

/-- A delete capability answering the n-th delete call (0-based)
according to a script; the state counts the calls made so far. -/
def scriptedDeleteClient
    (script : Nat → DeleteRequest → Except JsError DeleteObjectsResult) :
    S3Client Nat where
  putObject := fun n _ => (Except.error ⟨"Unsupported", "no put capability"⟩, n)
  listObjectsV2 := fun n _ => (Except.error ⟨"Unsupported", "no list capability"⟩, n)
  deleteObjects := fun n r => (script n r, n + 1)

/-- The per-object warnings produced by the successful batches of a call
log. -/
def perObjectWarnings
    (calls : List (DeleteRequest × Except JsError DeleteObjectsResult)) :
    List String :=
  (calls.map fun call =>
    match call.2 with
    | .ok res => res.Errors.map deleteObjectErrMsg
    | .error _ => []).flatten

/-- The deletions confirmed by the successful batches of a call log. -/
def sumDeleted
    (calls : List (DeleteRequest × Except JsError DeleteObjectsResult)) : Nat :=
  (calls.map fun call =>
    match call.2 with
    | .ok res => res.Deleted.length
    | .error _ => 0).sum

theorem deleteKeysGo_batch_failure
    (script : Nat → DeleteRequest → Except JsError DeleteObjectsResult)
    (bucketName : String) :
    ∀ (i fuel : Nat) (l : List ObjectIdentifier) (n : Nat),
      (∀ j, j < i → ∀ r, ∃ res, script (n + j) r = Except.ok res) →
      (∀ r, ∃ e, script (n + i) r = Except.error e) →
      ∀ hi : i < (specChunksGo fuel l).length,
      (deleteKeysGo (scriptedDeleteClient script) bucketName fuel l n).calls.map
          (fun call => call.1.Objects) = (specChunksGo fuel l).take (i + 1) ∧
      (deleteKeysGo (scriptedDeleteClient script) bucketName fuel l n).calls.length
        = i + 1 ∧
      (deleteKeysGo (scriptedDeleteClient script) bucketName fuel l n).deleted =
        sumDeleted ((deleteKeysGo (scriptedDeleteClient script) bucketName fuel l
          n).calls.take i) ∧
      ∃ e : JsError,
        (deleteKeysGo (scriptedDeleteClient script) bucketName fuel l n).warnings =
        perObjectWarnings ((deleteKeysGo (scriptedDeleteClient script) bucketName fuel
          l n).calls.take i) ++
        [deleteBatchFailMsg bucketName ((specChunksGo fuel l).get ⟨i, hi⟩)
          e.message] := by
  intro i
  induction i with
  | zero =>
    intro fuel l n _ hat hi
    cases fuel with
    | zero =>
      cases l with
      | nil => simp [specChunksGo] at hi
      | cons a t => simp [specChunksGo] at hi
    | succ fuel =>
      cases l with
      | nil => simp [specChunksGo] at hi
      | cons a t =>
        obtain ⟨e, he⟩ := hat ⟨bucketName, (a :: t).take maxItems⟩
        simp only [Nat.add_zero] at he
        have hcli : (scriptedDeleteClient script).deleteObjects n
            ⟨bucketName, (a :: t).take maxItems⟩ = (Except.error e, n + 1) := by
          simp [scriptedDeleteClient, he]
        refine ⟨?_, ?_, ?_, ⟨e, ?_⟩⟩
        · simp [deleteKeysGo, hcli, specChunksGo]
        · simp [deleteKeysGo, hcli]
        · simp [deleteKeysGo, hcli, sumDeleted]
        · simp [deleteKeysGo, hcli, perObjectWarnings, specChunksGo]
  | succ i ih =>
    intro fuel l n hbefore hat hi
    cases fuel with
    | zero =>
      cases l with
      | nil => simp [specChunksGo] at hi
      | cons a t => simp [specChunksGo] at hi
    | succ fuel =>
      cases l with
      | nil => simp [specChunksGo] at hi
      | cons a t =>
        obtain ⟨res, hres⟩ := hbefore 0 (Nat.succ_pos i)
          ⟨bucketName, (a :: t).take maxItems⟩
        simp only [Nat.add_zero] at hres
        have hcli : (scriptedDeleteClient script).deleteObjects n
            ⟨bucketName, (a :: t).take maxItems⟩ = (Except.ok res, n + 1) := by
          simp [scriptedDeleteClient, hres]
        have hbefore' : ∀ j, j < i → ∀ r, ∃ res2,
            script (n + 1 + j) r = Except.ok res2 := by
          intro j hj r
          obtain ⟨res2, h2⟩ := hbefore (j + 1) (by omega) r
          refine ⟨res2, ?_⟩
          have harith : n + (j + 1) = n + 1 + j := by omega
          rwa [harith] at h2
        have hat' : ∀ r, ∃ e, script (n + 1 + i) r = Except.error e := by
          intro r
          obtain ⟨e, h2⟩ := hat r
          refine ⟨e, ?_⟩
          have harith : n + (i + 1) = n + 1 + i := by omega
          rwa [harith] at h2
        have hi' : i < (specChunksGo fuel ((a :: t).drop maxItems)).length := by
          simp only [specChunksGo, List.length_cons] at hi
          omega
        obtain ⟨ih1, ih2, ih3, e, ih4⟩ :=
          ih fuel ((a :: t).drop maxItems) (n + 1) hbefore' hat' hi'
        refine ⟨?_, ?_, ?_, ⟨e, ?_⟩⟩
        · simp only [deleteKeysGo, hcli, List.map_cons, specChunksGo,
            List.take_succ_cons]
          rw [ih1]
        · simp only [deleteKeysGo, hcli, List.length_cons]
          rw [ih2]
        · simp only [deleteKeysGo, hcli, List.take_succ_cons, sumDeleted,
            List.map_cons, List.sum_cons]
          rw [ih3]
          rfl
        · simp only [deleteKeysGo, hcli, List.take_succ_cons, perObjectWarnings,
            List.map_cons, List.flatten_cons, specChunksGo, List.get_cons_succ]
          rw [ih4]
          simp [perObjectWarnings, List.append_assoc]

/-- C8: if the batched delete request for chunk `i` (0-based) fails at the
request level and the chunks before it succeeded, `deleteKeys` issues no
delete request for any chunk after `i` (exactly `i + 1` requests, matching
the first `i + 1` chunks), returns the deletion total accumulated from the
successful chunks before `i`, and its warnings are the per-object warnings
of those chunks followed by exactly one batch warning naming the failed
chunk's keys. -/
theorem deleteKeys_batch_failure
    (script : Nat → DeleteRequest → Except JsError DeleteObjectsResult)
    (bucketName : String) (l : List ObjectIdentifier) (i : Nat)
    (hbefore : ∀ j, j < i → ∀ r, ∃ res, script j r = Except.ok res)
    (hat : ∀ r, ∃ e, script i r = Except.error e)
    (hi : i < (specChunks l).length) :
    (deleteKeys (scriptedDeleteClient script) bucketName l 0).calls.map
        (fun call => call.1.Objects) = (specChunks l).take (i + 1) ∧
    (deleteKeys (scriptedDeleteClient script) bucketName l 0).calls.length = i + 1 ∧
    (deleteKeys (scriptedDeleteClient script) bucketName l 0).deleted =
      sumDeleted ((deleteKeys (scriptedDeleteClient script) bucketName l
        0).calls.take i) ∧
    ∃ e : JsError,
      (deleteKeys (scriptedDeleteClient script) bucketName l 0).warnings =
      perObjectWarnings ((deleteKeys (scriptedDeleteClient script) bucketName l
        0).calls.take i) ++
      [deleteBatchFailMsg bucketName ((specChunks l).get ⟨i, hi⟩) e.message] := by
  exact deleteKeysGo_batch_failure script bucketName i l.length l 0
    (by simpa using hbefore) (by simpa using hat) hi

/-- C8 witness: a single failing batch yields one request, zero deletions,
and exactly one batch warning naming the chunk's key. -/
theorem deleteKeys_batch_failure_witness :
    (deleteKeys (scriptedDeleteClient
        (fun _ _ => Except.error ⟨"AccessDenied", "denied"⟩)) "bkt"
        [⟨some "stale"⟩] 0).calls.length = 0 + 1 ∧
    (deleteKeys (scriptedDeleteClient
        (fun _ _ => Except.error ⟨"AccessDenied", "denied"⟩)) "bkt"
        [⟨some "stale"⟩] 0).deleted = 0 := by
  have h := deleteKeys_batch_failure
    (fun _ _ => Except.error ⟨"AccessDenied", "denied"⟩) "bkt" [⟨some "stale"⟩] 0
    (by intro j hj; omega)
    (fun r => ⟨⟨"AccessDenied", "denied"⟩, rfl⟩)
    (by decide)
  refine ⟨h.2.1, ?_⟩
  rw [h.2.2.1]
  rfl

/-- An opaque-to-the-code continuation token encoding an offset. -/
def tokenOfNat (n : Nat) : String := String.mk (List.replicate n 'x')

/-- The offset a continuation token stands for (`none` means the start). -/
def natOfToken : Option String → Nat
  | none => 0
  | some t => t.data.length

/-- An honest bucket stores an object under its key (overwriting any
previous object of the same key). -/
def honestPut (b : List String) (key : String) : List String :=
  if b.contains key then b else b ++ [key]

/-- One honest listing page: the keys from `start`, at most `maxKeys` of
them, truncated exactly when keys remain beyond the page. -/
def honestPage (b : List String) (start maxKeys : Nat) : ListObjectsOutput :=
  { Contents := ((b.drop start).take maxKeys).map fun k => ⟨some k⟩
    IsTruncated := decide (start + maxKeys < b.length)
    NextContinuationToken :=
      if start + maxKeys < b.length then some (tokenOfNat (start + maxKeys))
      else none }

/-- The all-success storage environment: state is the set of keys in the
bucket; every put, list, and delete request succeeds and behaves as S3
documents it. -/
def honestClient : S3Client (List String) where
  putObject := fun b req => (Except.ok (), honestPut b req.Key)
  listObjectsV2 := fun b req =>
    (Except.ok (honestPage b (natOfToken req.ContinuationToken) req.MaxKeys), b)
  deleteObjects := fun b req =>
    (Except.ok ⟨req.Objects, []⟩,
      b.filter fun k => !(req.Objects.any fun o => o.Key == some k))

/-- Upload each key in turn into the bucket. -/
def insertAll (b : List String) (keys : List String) : List String :=
  keys.foldl honestPut b

theorem mem_honestPut (b : List String) (key k : String) :
    k ∈ honestPut b key ↔ k ∈ b ∨ k = key := by
  unfold honestPut
  by_cases h : b.contains key
  · have hm : key ∈ b := by simpa [List.contains] using h
    simp only [h, if_true]
    constructor
    · intro hk; exact Or.inl hk
    · intro hk
      rcases hk with hk | hk
      · exact hk
      · rw [hk]; exact hm
  · simp only [h, if_false]
    simp [List.mem_append]

theorem mem_insertAll (keys : List String) :
    ∀ (b : List String) (k : String), k ∈ insertAll b keys ↔ k ∈ b ∨ k ∈ keys := by
  induction keys with
  | nil => intro b k; simp [insertAll]
  | cons key rest ih =>
    intro b k
    have h1 : insertAll b (key :: rest) = insertAll (honestPut b key) rest := rfl
    rw [h1, ih (honestPut b key) k, mem_honestPut]
    simp [List.mem_cons]
    tauto

theorem insertAll_length_le (keys : List String) :
    ∀ b : List String, (insertAll b keys).length ≤ b.length + keys.length := by
  induction keys with
  | nil => intro b; simp [insertAll]
  | cons key rest ih =>
    intro b
    have h1 : insertAll b (key :: rest) = insertAll (honestPut b key) rest := rfl
    rw [h1]
    have h2 := ih (honestPut b key)
    have h3 : (honestPut b key).length ≤ b.length + 1 := by
      unfold honestPut
      cases hc : b.contains key
      · simp [hc]
      · simp [hc]
    simp only [List.length_cons]
    omega

theorem putFilesGo_honest (env : UploadEnv) (params : PublishOptions) :
    ∀ (files : List FileInfo) (b : List String),
      (∀ f ∈ files, (resolvedOverrides env params f).Key = none) →
      (putFilesGo honestClient env params files false b).keys =
        files.map (fun f => params.pathTranslation f.path) ∧
      (putFilesGo honestClient env params files false b).fileCount = files.length ∧
      (putFilesGo honestClient env params files false b).state =
        insertAll b (files.map (fun f => params.pathTranslation f.path)) := by
  intro files
  induction files with
  | nil => intro b _; exact ⟨rfl, rfl, rfl⟩
  | cons f rest ih =>
    intro b hkey
    have hres : (resolvedOverrides env params f).Key = none :=
      hkey f (List.mem_cons_self f rest)
    have hreqkey : (spreadOverrides (basePutRequest env params f)
        (match params.paramsExt with
          | some ext => gatherParamsFromCompanionFile env f ext
          | none => ({}, [])).1).Key = params.pathTranslation f.path := by
      rw [← resolvedOverrides_eq]
      simp [spreadOverrides, hres, basePutRequest]
    have hcli : honestClient.putObject b
        (spreadOverrides (basePutRequest env params f)
          (match params.paramsExt with
            | some ext => gatherParamsFromCompanionFile env f ext
            | none => ({}, [])).1) =
        (Except.ok (), honestPut b (params.pathTranslation f.path)) := by
      simp only [honestClient]
      rw [hreqkey]
    have ihr := ih (honestPut b (params.pathTranslation f.path))
      (fun g hg => hkey g (List.mem_cons_of_mem f hg))
    refine ⟨?_, ?_, ?_⟩
    · simp only [putFilesGo, Bool.false_eq_true, if_false, hcli, List.map_cons]
      rw [ihr.1]
    · simp only [putFilesGo, Bool.false_eq_true, if_false, hcli, List.length_cons]
      rw [ihr.2.1]
    · simp only [putFilesGo, Bool.false_eq_true, if_false, hcli, List.map_cons]
      rw [ihr.2.2]
      rfl

theorem natOfToken_tokenOfNat (n : Nat) : natOfToken (some (tokenOfNat n)) = n := by
  simp [natOfToken, tokenOfNat]

theorem filterKeys_append (keep : List String) (xs ys : List S3Object) :
    filterKeys keep (xs ++ ys) = filterKeys keep xs ++ filterKeys keep ys := by
  simp [filterKeys, List.filter_append]

theorem gatherGo_honest (bucketName : String) (keep : List String) :
    ∀ (fuel start : Nat) (b : List String),
      b.length ≤ start + maxItems + fuel →
      ∃ calls, gatherGo honestClient bucketName keep fuel
          (honestPage b start maxItems) b =
        some ⟨filterKeys keep
            ((b.drop (start + maxItems)).map fun k => S3Object.mk (some k)), [],
          calls, b⟩ := by
  intro fuel
  induction fuel with
  | zero =>
    intro start b hb
    simp only [Nat.add_zero] at hb
    have htr : (honestPage b start maxItems).IsTruncated = false := by
      simp only [honestPage]
      simp only [decide_eq_false_iff_not]
      omega
    have hd : b.drop (start + maxItems) = [] := List.drop_eq_nil_of_le hb
    refine ⟨[], ?_⟩
    simp [gatherGo, htr, hd, filterKeys]
  | succ fuel ih =>
    intro start b hb
    by_cases htrunc : start + maxItems < b.length
    · have htr : (honestPage b start maxItems).IsTruncated = true := by
        simp only [honestPage]
        simpa using htrunc
      have hnext : (honestPage b start maxItems).NextContinuationToken =
          some (tokenOfNat (start + maxItems)) := by
        simp [honestPage, htrunc]
      have hcall : honestClient.listObjectsV2 b
          ⟨bucketName, maxItems, (honestPage b start maxItems).NextContinuationToken⟩ =
          (Except.ok (honestPage b (start + maxItems) maxItems), b) := by
        simp only [honestClient]
        rw [hnext, natOfToken_tokenOfNat]
      have hm : maxItems = 1000 := rfl
      obtain ⟨calls, hrec⟩ := ih (start + maxItems) b (by omega)
      refine ⟨(⟨bucketName, maxItems, (honestPage b start maxItems).NextContinuationToken⟩,
        Except.ok (honestPage b (start + maxItems) maxItems)) :: calls, ?_⟩
      rw [gatherGo, htr]
      simp only [if_true, hcall, hrec]
      have hc2 : (honestPage b (start + maxItems) maxItems).Contents =
          ((b.drop (start + maxItems)).take maxItems).map
            (fun k => S3Object.mk (some k)) := by
        simp [honestPage]
      have hcontents :
          filterKeys keep (honestPage b (start + maxItems) maxItems).Contents ++
          filterKeys keep
            ((b.drop (start + maxItems + maxItems)).map fun k => S3Object.mk (some k)) =
          filterKeys keep ((b.drop (start + maxItems)).map fun k =>
            S3Object.mk (some k)) := by
        have hsplit : b.drop (start + maxItems) =
            (b.drop (start + maxItems)).take maxItems ++
              (b.drop (start + maxItems)).drop maxItems := by
          rw [List.take_append_drop]
        have hdd : (b.drop (start + maxItems)).drop maxItems =
            b.drop (start + maxItems + maxItems) := by
          rw [List.drop_drop]
        rw [hc2]
        conv_rhs => rw [hsplit, hdd]
        rw [List.map_append, filterKeys_append]
      rw [← hcontents]
    · have htr : (honestPage b start maxItems).IsTruncated = false := by
        simp only [honestPage]
        simp only [decide_eq_false_iff_not]
        omega
      have hd : b.drop (start + maxItems) = [] := List.drop_eq_nil_of_le (by omega)
      refine ⟨[], ?_⟩
      rw [gatherGo, htr]
      simp [hd, filterKeys]

theorem gather_honest (bucketName : String) (keep : List String)
    (fuel : Nat) (b : List String) (hb : b.length ≤ maxItems + fuel) :
    ∃ calls, gatherKeysToDelete honestClient bucketName keep (fuel + 1) b =
      some ⟨filterKeys keep (b.map fun k => S3Object.mk (some k)), [], calls, b⟩ := by
  have hcall : honestClient.listObjectsV2 b
      ⟨bucketName, maxItems, initialListResponse.NextContinuationToken⟩ =
      (Except.ok (honestPage b 0 maxItems), b) := by
    simp only [honestClient]
    rfl
  obtain ⟨calls, hrec⟩ := gatherGo_honest bucketName keep fuel 0 b (by omega)
  refine ⟨(⟨bucketName, maxItems, initialListResponse.NextContinuationToken⟩,
    Except.ok (honestPage b 0 maxItems)) :: calls, ?_⟩
  unfold gatherKeysToDelete
  rw [gatherGo]
  have htr : initialListResponse.IsTruncated = true := rfl
  rw [htr]
  simp only [if_true, hcall]
  simp only [Nat.zero_add] at hrec
  rw [hrec]
  have hcontents : filterKeys keep (honestPage b 0 maxItems).Contents ++
      filterKeys keep ((b.drop maxItems).map fun k => S3Object.mk (some k)) =
      filterKeys keep (b.map fun k => S3Object.mk (some k)) := by
    have hsplit : b = b.take maxItems ++ b.drop maxItems := by
      rw [List.take_append_drop]
    conv_rhs => rw [hsplit]
    rw [List.map_append, filterKeys_append]
    have hc : (honestPage b 0 maxItems).Contents =
        (b.take maxItems).map fun k => S3Object.mk (some k) := by
      simp [honestPage]
    rw [hc]
  rw [← hcontents]

theorem deleteKeysGo_honest_state (bucketName : String) :
    ∀ (fuel : Nat) (l : List ObjectIdentifier) (b : List String),
      l.length ≤ fuel →
      (deleteKeysGo honestClient bucketName fuel l b).state =
        b.filter fun k => !(l.any fun o => o.Key == some k) := by
  intro fuel
  induction fuel with
  | zero =>
    intro l b hl
    cases l with
    | nil => simp [deleteKeysGo, List.filter_true]
    | cons a t => simp at hl
  | succ fuel ih =>
    intro l b hl
    cases l with
    | nil => simp [deleteKeysGo, List.filter_true]
    | cons a t =>
      have hcli : honestClient.deleteObjects b ⟨bucketName, (a :: t).take maxItems⟩ =
          (Except.ok ⟨(a :: t).take maxItems, []⟩,
            b.filter fun k => !(((a :: t).take maxItems).any fun o =>
              o.Key == some k)) := by
        simp only [honestClient]
      have hlen : ((a :: t).drop maxItems).length ≤ fuel := by
        simp only [List.length_drop, List.length_cons] at hl ⊢
        have hm : maxItems = 1000 := rfl
        omega
      have ihr := ih ((a :: t).drop maxItems)
        (b.filter fun k => !(((a :: t).take maxItems).any fun o => o.Key == some k))
        hlen
      simp only [deleteKeysGo, hcli]
      rw [ihr, List.filter_filter]
      have hfun : ∀ k : String,
          ((!(((a :: t).drop maxItems).any fun o => o.Key == some k)) &&
            (!(((a :: t).take maxItems).any fun o => o.Key == some k))) =
          (!((a :: t).any fun o => o.Key == some k)) := by
        intro k
        conv_rhs => rw [← List.take_append_drop maxItems (a :: t)]
        rw [List.any_append, Bool.not_or, Bool.and_comm]
      exact List.filter_congr fun k _ => hfun k

theorem putFiles_honest (env : UploadEnv) (params : PublishOptions) (b : List String)
    (hkey : ∀ f ∈ env.files, (resolvedOverrides env params f).Key = none) :
    (putFiles honestClient env params b).keys =
      env.files.map (fun f => params.pathTranslation f.path) ∧
    (putFiles honestClient env params b).fileCount = env.files.length ∧
    (putFiles honestClient env params b).state =
      insertAll b (env.files.map (fun f => params.pathTranslation f.path)) :=
  putFilesGo_honest env params env.files b hkey

theorem pushToS3_sync_eq {σ : Type} (c : S3Client σ) (env : UploadEnv)
    (params : PublishOptions) (listFuel : Nat) (s : σ) (g : GatherOutcome σ)
    (hsync : params.sync = true)
    (hg : gatherKeysToDelete c params.bucketName (putFiles c env params s).keys
      listFuel (putFiles c env params s).state = some g) :
    pushToS3 c env params listFuel s =
      some ({ bucketUrl := bucketUrlOf params.bucketName params.region
              warnings := (putFiles c env params s).warnings ++ (g.warnings ++
                (deleteKeys c params.bucketName g.keysToDelete g.state).warnings)
              fileCount := (putFiles c env params s).fileCount
              deleted :=
                (deleteKeys c params.bucketName g.keysToDelete g.state).deleted },
            ⟨(putFiles c env params s).calls, (putFiles c env params s).keys, g.calls,
              (deleteKeys c params.bucketName g.keysToDelete g.state).calls,
              (deleteKeys c params.bucketName g.keysToDelete g.state).state⟩) := by
  unfold pushToS3
  rw [hsync]
  simp only [if_true, hg]

theorem mem_filterKeys_intro (keep : List String) (b : List String) (k : String)
    (hb : k ∈ b) (hne : k ≠ "") (hnk : k ∉ keep) :
    ObjectIdentifier.mk (some k) ∈
      filterKeys keep (b.map fun x => S3Object.mk (some x)) := by
  rw [filterKeys_eq_spec]
  unfold filterKeysSpec
  apply List.mem_filterMap.mpr
  refine ⟨⟨some k⟩, List.mem_map.mpr ⟨k, hb, rfl⟩, ?_⟩
  simp [hne, hnk]

theorem filterKeys_map_eq_nil (keep : List String) (b : List String)
    (h : ∀ k ∈ b, k = "" ∨ k ∈ keep) :
    filterKeys keep (b.map fun x => S3Object.mk (some x)) = [] := by
  rw [filterKeys_eq_spec]
  unfold filterKeysSpec
  rw [List.filterMap_eq_nil_iff]
  intro o ho
  rcases List.mem_map.mp ho with ⟨k, hk, rfl⟩
  rcases h k hk with h1 | h1
  · simp [h1]
  · simp [h1]

/-- C4 (amended): for every initial bucket state and local files whose
resolved descriptors never override `Key`, running `pushToS3` twice in
sequence with unchanged local files, `sync = true`, and the all-success
environment yields `deleted = 0` on the second run and the same
`fileCount` as the first run. -/
theorem pushToS3_idempotent (env : UploadEnv) (params : PublishOptions)
    (b0 : List String)
    (hsync : params.sync = true)
    (hkey : ∀ f ∈ env.files, (resolvedOverrides env params f).Key = none) :
    ∃ r1 t1, pushToS3 honestClient env params
        (b0.length + env.files.length + 1) b0 = some (r1, t1) ∧
      ∃ r2 t2, pushToS3 honestClient env params
          (t1.state.length + env.files.length + 1) t1.state = some (r2, t2) ∧
        r2.deleted = 0 ∧ r2.fileCount = r1.fileCount := by
  have hm : maxItems = 1000 := rfl
  have hput1 := putFiles_honest env params b0 hkey
  have hb1 : (putFiles honestClient env params b0).state.length ≤
      maxItems + (b0.length + env.files.length) := by
    rw [hput1.2.2]
    have h1 := insertAll_length_le
      (env.files.map (fun f => params.pathTranslation f.path)) b0
    rw [List.length_map] at h1
    omega
  obtain ⟨calls1, hg1⟩ := gather_honest params.bucketName
    ((putFiles honestClient env params b0).keys)
    (b0.length + env.files.length)
    ((putFiles honestClient env params b0).state) hb1
  have hpush1 := pushToS3_sync_eq honestClient env params
    (b0.length + env.files.length + 1) b0
    ⟨filterKeys ((putFiles honestClient env params b0).keys)
      (((putFiles honestClient env params b0).state).map fun k =>
        S3Object.mk (some k)), [], calls1,
      (putFiles honestClient env params b0).state⟩ hsync hg1
  refine ⟨_, _, hpush1, ?_⟩
  have hstate1 : (deleteKeys honestClient params.bucketName
      (filterKeys ((putFiles honestClient env params b0).keys)
        (((putFiles honestClient env params b0).state).map fun k =>
          S3Object.mk (some k)))
      ((putFiles honestClient env params b0).state)).state =
      ((putFiles honestClient env params b0).state).filter fun k =>
        !((filterKeys ((putFiles honestClient env params b0).keys)
          (((putFiles honestClient env params b0).state).map fun x =>
            S3Object.mk (some x))).any fun o => o.Key == some k) :=
    deleteKeysGo_honest_state params.bucketName _ _ _ le_rfl
  -- facts about the bucket after the first run
  have hσ1 : ∀ k ∈ (deleteKeys honestClient params.bucketName
      (filterKeys ((putFiles honestClient env params b0).keys)
        (((putFiles honestClient env params b0).state).map fun k =>
          S3Object.mk (some k)))
      ((putFiles honestClient env params b0).state)).state,
      k = "" ∨ k ∈ env.files.map (fun f => params.pathTranslation f.path) := by
    intro k hk
    rw [hstate1] at hk
    rcases List.mem_filter.mp hk with ⟨hmem, hnotany⟩
    by_cases hne : k = ""
    · exact Or.inl hne
    · by_cases hd : k ∈ env.files.map (fun f => params.pathTranslation f.path)
      · exact Or.inr hd
      · exfalso
        have hdk : k ∉ (putFiles honestClient env params b0).keys := by
          rw [hput1.1]; exact hd
        have hin := mem_filterKeys_intro
          ((putFiles honestClient env params b0).keys)
          ((putFiles honestClient env params b0).state) k hmem hne hdk
        have : ((filterKeys ((putFiles honestClient env params b0).keys)
            (((putFiles honestClient env params b0).state).map fun x =>
              S3Object.mk (some x))).any fun o => o.Key == some k) = true := by
          apply List.any_eq_true.mpr
          exact ⟨⟨some k⟩, hin, by simp⟩
        rw [this] at hnotany
        simp at hnotany
  -- the second run
  have hput2 := putFiles_honest env params
    ((deleteKeys honestClient params.bucketName
      (filterKeys ((putFiles honestClient env params b0).keys)
        (((putFiles honestClient env params b0).state).map fun k =>
          S3Object.mk (some k)))
      ((putFiles honestClient env params b0).state)).state) hkey
  have hb2 : (putFiles honestClient env params
      ((deleteKeys honestClient params.bucketName
        (filterKeys ((putFiles honestClient env params b0).keys)
          (((putFiles honestClient env params b0).state).map fun k =>
            S3Object.mk (some k)))
        ((putFiles honestClient env params b0).state)).state)).state.length ≤
      maxItems + (((deleteKeys honestClient params.bucketName
        (filterKeys ((putFiles honestClient env params b0).keys)
          (((putFiles honestClient env params b0).state).map fun k =>
            S3Object.mk (some k)))
        ((putFiles honestClient env params b0).state)).state).length +
        env.files.length) := by
    rw [hput2.2.2]
    have h1 := insertAll_length_le
      (env.files.map (fun f => params.pathTranslation f.path))
      ((deleteKeys honestClient params.bucketName
        (filterKeys ((putFiles honestClient env params b0).keys)
          (((putFiles honestClient env params b0).state).map fun k =>
            S3Object.mk (some k)))
        ((putFiles honestClient env params b0).state)).state)
    rw [List.length_map] at h1
    omega
  obtain ⟨calls2, hg2⟩ := gather_honest params.bucketName
    ((putFiles honestClient env params
      ((deleteKeys honestClient params.bucketName
        (filterKeys ((putFiles honestClient env params b0).keys)
          (((putFiles honestClient env params b0).state).map fun k =>
            S3Object.mk (some k)))
        ((putFiles honestClient env params b0).state)).state)).keys)
    (((deleteKeys honestClient params.bucketName
      (filterKeys ((putFiles honestClient env params b0).keys)
        (((putFiles honestClient env params b0).state).map fun k =>
          S3Object.mk (some k)))
      ((putFiles honestClient env params b0).state)).state).length +
      env.files.length)
    ((putFiles honestClient env params
      ((deleteKeys honestClient params.bucketName
        (filterKeys ((putFiles honestClient env params b0).keys)
          (((putFiles honestClient env params b0).state).map fun k =>
            S3Object.mk (some k)))
        ((putFiles honestClient env params b0).state)).state)).state) hb2
  have hpush2 := pushToS3_sync_eq honestClient env params
    ((((deleteKeys honestClient params.bucketName
      (filterKeys ((putFiles honestClient env params b0).keys)
        (((putFiles honestClient env params b0).state).map fun k =>
          S3Object.mk (some k)))
      ((putFiles honestClient env params b0).state)).state).length +
      env.files.length) + 1)
    ((deleteKeys honestClient params.bucketName
      (filterKeys ((putFiles honestClient env params b0).keys)
        (((putFiles honestClient env params b0).state).map fun k =>
          S3Object.mk (some k)))
      ((putFiles honestClient env params b0).state)).state)
    ⟨filterKeys ((putFiles honestClient env params
        ((deleteKeys honestClient params.bucketName
          (filterKeys ((putFiles honestClient env params b0).keys)
            (((putFiles honestClient env params b0).state).map fun k =>
              S3Object.mk (some k)))
          ((putFiles honestClient env params b0).state)).state)).keys)
      (((putFiles honestClient env params
        ((deleteKeys honestClient params.bucketName
          (filterKeys ((putFiles honestClient env params b0).keys)
            (((putFiles honestClient env params b0).state).map fun k =>
              S3Object.mk (some k)))
          ((putFiles honestClient env params b0).state)).state)).state).map fun k =>
        S3Object.mk (some k)), [], calls2,
      (putFiles honestClient env params
        ((deleteKeys honestClient params.bucketName
          (filterKeys ((putFiles honestClient env params b0).keys)
            (((putFiles honestClient env params b0).state).map fun k =>
              S3Object.mk (some k)))
          ((putFiles honestClient env params b0).state)).state)).state⟩ hsync hg2
  -- the second run's deletion candidates are empty
  have hnil : filterKeys ((putFiles honestClient env params
      ((deleteKeys honestClient params.bucketName
        (filterKeys ((putFiles honestClient env params b0).keys)
          (((putFiles honestClient env params b0).state).map fun k =>
            S3Object.mk (some k)))
        ((putFiles honestClient env params b0).state)).state)).keys)
      (((putFiles honestClient env params
        ((deleteKeys honestClient params.bucketName
          (filterKeys ((putFiles honestClient env params b0).keys)
            (((putFiles honestClient env params b0).state).map fun k =>
              S3Object.mk (some k)))
          ((putFiles honestClient env params b0).state)).state)).state).map fun k =>
        S3Object.mk (some k)) = [] := by
    apply filterKeys_map_eq_nil
    intro k hk
    rw [hput2.2.2] at hk
    rw [hput2.1]
    rcases (mem_insertAll _ _ k).mp hk with h1 | h1
    · exact hσ1 k h1
    · exact Or.inr h1
  refine ⟨_, _, hpush2, ?_, ?_⟩
  · show (deleteKeys honestClient params.bucketName _ _).deleted = 0
    rw [hnil]
    rfl
  · show (putFiles honestClient env params _).fileCount =
      (putFiles honestClient env params b0).fileCount
    rw [hput2.2.1, hput1.2.1]

/-- The environment of the C4 counterexample: one file whose companion
descriptor overrides `Key`, so the object is uploaded under a key that is
not in the keys-to-keep list. -/
def keyOverrideEnv : UploadEnv :=
  { files := [⟨"a.html", "a.html", "x"⟩]
    getFile := fun p => if p = ".a.html.s3p" then some "keyJson" else none
    parseJson := fun c =>
      if c = "keyJson" then Except.ok { Key := some "other" }
      else Except.error "unexpected token"
    mimeLookup := fun _ => none }

/-- The options of the C4 counterexample: sync enabled, descriptors
enabled. -/
def keyOverrideParams : PublishOptions :=
  ⟨"bkt", "us-east-1", id, true, some ".s3p"⟩

/-- C4 counterexample: with unchanged local files, `sync = true`, and the
all-success environment, a descriptor that overrides `Key` makes the
second run delete 1 object (the engine deletes its own upload, whose
bucket key is not in the keys-to-keep list), so `deleted = 0` on the
second run fails as stated. -/
theorem pushToS3_idempotent_counterexample :
    (Option.bind (pushToS3 honestClient keyOverrideEnv keyOverrideParams 2 [])
      (fun rt => pushToS3 honestClient keyOverrideEnv keyOverrideParams 2
        rt.2.state)).map (fun rt => rt.1.deleted) = some 1 := by
  rfl

/-- C4 witness: a concrete no-descriptor run over an initially stale
bucket, applied to the amended theorem. -/
theorem pushToS3_idempotent_witness :
    (PublishOptions.mk "bkt" "us-east-1" id true none).sync = true ∧
    (∀ f ∈ (UploadEnv.mk [⟨"site/a.html", "a.html", "hello"⟩] (fun _ => none)
        (fun _ => Except.error "bad") (fun _ => some "text/html")).files,
      (resolvedOverrides
        (UploadEnv.mk [⟨"site/a.html", "a.html", "hello"⟩] (fun _ => none)
          (fun _ => Except.error "bad") (fun _ => some "text/html"))
        (PublishOptions.mk "bkt" "us-east-1" id true none) f).Key = none) ∧
    (∃ r1 t1, pushToS3 honestClient
        (UploadEnv.mk [⟨"site/a.html", "a.html", "hello"⟩] (fun _ => none)
          (fun _ => Except.error "bad") (fun _ => some "text/html"))
        (PublishOptions.mk "bkt" "us-east-1" id true none)
        (["stale"].length + (UploadEnv.mk [⟨"site/a.html", "a.html", "hello"⟩]
          (fun _ => none) (fun _ => Except.error "bad")
          (fun _ => some "text/html")).files.length + 1) ["stale"] = some (r1, t1) ∧
      ∃ r2 t2, pushToS3 honestClient
          (UploadEnv.mk [⟨"site/a.html", "a.html", "hello"⟩] (fun _ => none)
            (fun _ => Except.error "bad") (fun _ => some "text/html"))
          (PublishOptions.mk "bkt" "us-east-1" id true none)
          (t1.state.length + (UploadEnv.mk [⟨"site/a.html", "a.html", "hello"⟩]
            (fun _ => none) (fun _ => Except.error "bad")
            (fun _ => some "text/html")).files.length + 1) t1.state = some (r2, t2) ∧
        r2.deleted = 0 ∧ r2.fileCount = r1.fileCount) := by
  refine ⟨rfl, by decide, ?_⟩
  exact pushToS3_idempotent
    (UploadEnv.mk [⟨"site/a.html", "a.html", "hello"⟩] (fun _ => none)
      (fun _ => Except.error "bad") (fun _ => some "text/html"))
    (PublishOptions.mk "bkt" "us-east-1" id true none) ["stale"] rfl (by decide)

end SdmS3
